/-
Verification of the sash repository ("tee with a live tail window").

The development shallowly embeds the C sources:
  - the ring buffer (ringbuf.c / the ringbuf section of sash.c),
  - the line sanitizer, frame compositor, window setup and resize logic
    (the display.c section of sash.c),
  - the sink tee path and the main line-processing loop (main.c / sash.c).

Bytes are modelled as Nat, C arrays as Lists, and the process globals as an
explicit state structure threaded through the display operations.  Fallible
external effects (fwrite results, terminal write results, ioctl results,
the DSR cursor probe) are passed in as explicit oracle parameters.
-/
import Mathlib

namespace Sash

/-! ### List helper lemmas -/

theorem getD_set_self {α : Type} (l : List α) (i : Nat) (a d : α)
    (h : i < l.length) : (l.set i a).getD i d = a := by
  induction l generalizing i with
  | nil => simp at h
  | cons x xs ih =>
    cases i with
    | zero => simp
    | succ n => simpa using ih n (by simpa using h)

theorem getD_set_ne {α : Type} (l : List α) (i j : Nat) (a d : α)
    (h : i ≠ j) : (l.set i a).getD j d = l.getD j d := by
  induction l generalizing i j with
  | nil => simp
  | cons x xs ih =>
    cases i with
    | zero =>
      cases j with
      | zero => exact absurd rfl h
      | succ m => simp
    | succ n =>
      cases j with
      | zero => simp
      | succ m => simpa using ih n m (by omega)

theorem getD_append_left {α : Type} (l m : List α) (i : Nat) (d : α)
    (h : i < l.length) : (l ++ m).getD i d = l.getD i d := by
  induction l generalizing i with
  | nil => simp at h
  | cons x xs ih =>
    cases i with
    | zero => simp
    | succ n => simpa using ih n (by simpa using h)

theorem getD_append_right {α : Type} (l m : List α) (i : Nat) (d : α)
    (h : l.length ≤ i) : (l ++ m).getD i d = m.getD (i - l.length) d := by
  induction l generalizing i with
  | nil => simp
  | cons x xs ih =>
    cases i with
    | zero => simp at h
    | succ n => simpa using ih n (by simpa using h)

theorem getD_replicate {α : Type} (n i : Nat) (a d : α) (h : i < n) :
    (List.replicate n a).getD i d = a := by
  induction n generalizing i with
  | zero => omega
  | succ m ih =>
    cases i with
    | zero => simp [List.replicate]
    | succ k => simpa [List.replicate] using ih k (by omega)

theorem takeWhile_ne_zero_of_not_mem (l : List Nat) (h : (0 : Nat) ∉ l) :
    l.takeWhile (fun b => b != 0) = l := by
  induction l with
  | nil => rfl
  | cons x xs ih =>
    have hx : x ≠ 0 := by intro hx0; exact h (hx0 ▸ List.mem_cons_self x xs)
    have hxs : (0 : Nat) ∉ xs := fun hm => h (List.mem_cons_of_mem x hm)
    have hxb : (x != 0) = true := by simpa using hx
    simp [List.takeWhile_cons, hxb, ih hxs]

/-- Case split for `x % C` when `x < 2*C`: either `x` is already reduced or
one subtraction of `C` reduces it.  Turns every ring-buffer index computation
into a goal `omega` can close. -/
theorem mod_cases (x C : Nat) (h : x < 2 * C) :
    (x < C ∧ x % C = x) ∨ (C ≤ x ∧ x % C = x - C) := by
  by_cases hx : x < C
  · exact Or.inl ⟨hx, Nat.mod_eq_of_lt hx⟩
  · refine Or.inr ⟨by omega, ?_⟩
    rw [Nat.mod_eq_sub_mod (by omega)]
    exact Nat.mod_eq_of_lt (by omega)

/-- Two in-window offsets from the same head land in distinct slots. -/
theorem mod_add_ne (head C : Nat) (hh : head < C) (i j : Nat)
    (hi : i < C) (hj : j < C) (hne : i ≠ j) :
    (head + i) % C ≠ (head + j) % C := by
  intro h
  rcases mod_cases (head + i) C (by omega) with h1 | h1 <;>
    rcases mod_cases (head + j) C (by omega) with h2 | h2 <;> omega

/-! ### Ring buffer (ringbuf.c, also inlined in sash.c)

```c
typedef struct {
    char  **lines; size_t *lengths; size_t capacity; size_t head; size_t count;
} RingBuf;
```
`lines[slot]` / `lengths[slot]` are modelled as two lists of length
`capacity`; a NULL entry is modelled as `[]`. -/

structure RingBuf where
  lines : List (List Nat)
  lengths : List Nat
  capacity : Nat
  head : Nat
  count : Nat
  deriving Repr, DecidableEq

/-- `strndup(line, len)` copies at most `len` bytes, stopping at the first
NUL byte.  (Allocation failure is out of scope: it is modelled as success.) -/
def strndup (line : List Nat) (len : Nat) : List Nat :=
  (line.take len).takeWhile (fun b => b != 0)

/-- `ringbuf_init`: calloc'd arrays (all-NULL lines, all-zero lengths). -/
def ringbuf_init (cap : Nat) : RingBuf :=
  { lines := List.replicate cap []
    lengths := List.replicate cap 0
    capacity := cap
    head := 0
    count := 0 }

/-- `ringbuf_push`: append in the next free slot, or overwrite the oldest
slot and advance `head` when full.  (The strndup-failure branch, which
stores length 0, is not modelled: allocation is assumed to succeed.) -/
def ringbuf_push (rb : RingBuf) (line : List Nat) (len : Nat) : RingBuf :=
  if rb.count < rb.capacity then
    let slot := (rb.head + rb.count) % rb.capacity
    { rb with
      count := rb.count + 1
      lines := rb.lines.set slot (strndup line len)
      lengths := rb.lengths.set slot len }
  else
    let slot := rb.head
    { rb with
      head := (rb.head + 1) % rb.capacity
      lines := rb.lines.set slot (strndup line len)
      lengths := rb.lengths.set slot len }

/-- `ringbuf_get`: out-of-range index yields the empty string with length 0;
otherwise return the stored (content, length) pair. -/
def ringbuf_get (rb : RingBuf) (i : Nat) : List Nat × Nat :=
  if i ≥ rb.count then ([], 0)
  else
    let idx := (rb.head + i) % rb.capacity
    (rb.lines.getD idx [], rb.lengths.getD idx 0)

/-- Push a sequence of lines, each with its own length (as the main loop
does: `ringbuf_push(&g_ring, line, nread)`). -/
def pushAll (rb : RingBuf) (xs : List (List Nat)) : RingBuf :=
  xs.foldl (fun b l => ringbuf_push b l l.length) rb

/-! #### Ring buffer invariant -/

/-- Invariant tying the ring buffer obtained by pushing `xs` into an empty
buffer of capacity `C` to the mathematical window of the last
`min xs.length C` lines. -/
structure RBInv (C : Nat) (xs : List (List Nat)) (rb : RingBuf) : Prop where
  cap_eq : rb.capacity = C
  lines_len : rb.lines.length = C
  lengths_len : rb.lengths.length = C
  head_lt : rb.head < C
  count_eq : rb.count = min xs.length C
  content : ∀ i, i < rb.count →
    rb.lines.getD ((rb.head + i) % C) [] =
      strndup (xs.getD (xs.length - rb.count + i) [])
        (xs.getD (xs.length - rb.count + i) []).length
  lens : ∀ i, i < rb.count →
    rb.lengths.getD ((rb.head + i) % C) 0 =
      (xs.getD (xs.length - rb.count + i) []).length

theorem ringbuf_push_not_full (rb : RingBuf) (line : List Nat) (len : Nat)
    (h : rb.count < rb.capacity) :
    ringbuf_push rb line len =
      { rb with
        count := rb.count + 1
        lines := rb.lines.set ((rb.head + rb.count) % rb.capacity) (strndup line len)
        lengths := rb.lengths.set ((rb.head + rb.count) % rb.capacity) len } := by
  rw [ringbuf_push, if_pos h]

theorem ringbuf_push_full (rb : RingBuf) (line : List Nat) (len : Nat)
    (h : ¬rb.count < rb.capacity) :
    ringbuf_push rb line len =
      { rb with
        head := (rb.head + 1) % rb.capacity
        lines := rb.lines.set rb.head (strndup line len)
        lengths := rb.lengths.set rb.head len } := by
  rw [ringbuf_push, if_neg h]

theorem rbinv_init (C : Nat) (hC : 0 < C) : RBInv C [] (ringbuf_init C) := by
  refine ⟨rfl, by simp [ringbuf_init], by simp [ringbuf_init], by
    simpa [ringbuf_init] using hC, by simp [ringbuf_init], ?_, ?_⟩ <;>
    · intro i hi; simp [ringbuf_init] at hi

theorem rbinv_push (C : Nat) (hC : 0 < C) (xs : List (List Nat))
    (rb : RingBuf) (inv : RBInv C xs rb) (x : List Nat) :
    RBInv C (xs ++ [x]) (ringbuf_push rb x x.length) := by
  obtain ⟨hcap, hll, hgl, hh, hc, hcont, hlen⟩ := inv
  have hcle : rb.count ≤ C := by omega
  have hclen : rb.count ≤ xs.length := by omega
  by_cases hfull : rb.count < rb.capacity
  · -- not yet full: append at slot (head + count) % C
    have hcC : rb.count < C := by omega
    rw [ringbuf_push_not_full rb x x.length hfull, hcap]
    have hslot : (rb.head + rb.count) % C < C := Nat.mod_lt _ hC
    refine ⟨rfl, by simpa using hll, by simpa using hgl, hh, ?_, ?_, ?_⟩
    · show rb.count + 1 = min (xs ++ [x]).length C
      simp only [List.length_append, List.length_cons, List.length_nil]
      omega
    · intro i hi
      simp only at hi ⊢
      rcases Nat.lt_or_ge i rb.count with hiold | hinew
      · -- an old entry, untouched by the set
        have hne : (rb.head + rb.count) % C ≠ (rb.head + i) % C :=
          mod_add_ne rb.head C hh rb.count i hcC (by omega) (by omega)
        rw [getD_set_ne _ _ _ _ _ hne, hcont i hiold]
        have hidx : (xs ++ [x]).length - (rb.count + 1) + i =
            xs.length - rb.count + i := by
          simp only [List.length_append, List.length_cons, List.length_nil]
          omega
        rw [hidx, getD_append_left _ _ _ _ (by omega)]
      · -- the newly written entry
        have hieq : i = rb.count := by omega
        subst hieq
        rw [getD_set_self _ _ _ _ (by omega)]
        have hidx : (xs ++ [x]).length - (rb.count + 1) + rb.count = xs.length := by
          simp only [List.length_append, List.length_cons, List.length_nil]
          omega
        rw [hidx, getD_append_right _ _ _ _ (by omega)]
        simp
    · intro i hi
      simp only at hi ⊢
      rcases Nat.lt_or_ge i rb.count with hiold | hinew
      · have hne : (rb.head + rb.count) % C ≠ (rb.head + i) % C :=
          mod_add_ne rb.head C hh rb.count i hcC (by omega) (by omega)
        rw [getD_set_ne _ _ _ _ _ hne, hlen i hiold]
        have hidx : (xs ++ [x]).length - (rb.count + 1) + i =
            xs.length - rb.count + i := by
          simp only [List.length_append, List.length_cons, List.length_nil]
          omega
        rw [hidx, getD_append_left _ _ _ _ (by omega)]
      · have hieq : i = rb.count := by omega
        subst hieq
        rw [getD_set_self _ _ _ _ (by omega)]
        have hidx : (xs ++ [x]).length - (rb.count + 1) + rb.count = xs.length := by
          simp only [List.length_append, List.length_cons, List.length_nil]
          omega
        rw [hidx, getD_append_right _ _ _ _ (by omega)]
        simp
  · -- full: overwrite the oldest slot, advance head
    have hcC : rb.count = C := by omega
    have hxsC : C ≤ xs.length := by omega
    rw [ringbuf_push_full rb x x.length hfull, hcap]
    refine ⟨rfl, by simpa using hll, by simpa using hgl,
      Nat.mod_lt _ hC, ?_, ?_, ?_⟩
    · show rb.count = min (xs ++ [x]).length C
      simp only [List.length_append, List.length_cons, List.length_nil]
      omega
    · intro i hi
      simp only at hi ⊢
      have hiC : i < C := by omega
      have hstep : ((rb.head + 1) % C + i) % C = (rb.head + (1 + i)) % C := by
        rw [Nat.mod_add_mod]
        congr 1
        omega
      by_cases hlast : i = C - 1
      · -- reads the newly written slot
        subst hlast
        have hwrap : (rb.head + (1 + (C - 1))) % C = rb.head := by
          have h1 : rb.head + (1 + (C - 1)) = rb.head + C := by omega
          rw [h1, Nat.add_mod_right, Nat.mod_eq_of_lt hh]
        rw [hstep, hwrap, getD_set_self _ _ _ _ (by omega)]
        have hidx : (xs ++ [x]).length - rb.count + (C - 1) = xs.length := by
          simp only [List.length_append, List.length_cons, List.length_nil]
          omega
        rw [hidx, getD_append_right _ _ _ _ (by omega)]
        simp
      · -- reads an old slot shifted by one
        have hne : rb.head ≠ (rb.head + (1 + i)) % C := by
          intro heq
          rcases mod_cases (rb.head + (1 + i)) C (by omega) with hm | hm <;> omega
        rw [hstep, getD_set_ne _ _ _ _ _ hne]
        have h2 : rb.head + (1 + i) = rb.head + (i + 1) := by omega
        rw [h2, hcont (i + 1) (by omega)]
        have hidx : xs.length - rb.count + (i + 1) =
            (xs ++ [x]).length - rb.count + i := by
          simp only [List.length_append, List.length_cons, List.length_nil]
          omega
        rw [hidx, getD_append_left _ _ _ _ (by simp; omega)]
    · intro i hi
      simp only at hi ⊢
      have hiC : i < C := by omega
      have hstep : ((rb.head + 1) % C + i) % C = (rb.head + (1 + i)) % C := by
        rw [Nat.mod_add_mod]
        congr 1
        omega
      by_cases hlast : i = C - 1
      · subst hlast
        have hwrap : (rb.head + (1 + (C - 1))) % C = rb.head := by
          have h1 : rb.head + (1 + (C - 1)) = rb.head + C := by omega
          rw [h1, Nat.add_mod_right, Nat.mod_eq_of_lt hh]
        rw [hstep, hwrap, getD_set_self _ _ _ _ (by omega)]
        have hidx : (xs ++ [x]).length - rb.count + (C - 1) = xs.length := by
          simp only [List.length_append, List.length_cons, List.length_nil]
          omega
        rw [hidx, getD_append_right _ _ _ _ (by omega)]
        simp
      · have hne : rb.head ≠ (rb.head + (1 + i)) % C := by
          intro heq
          rcases mod_cases (rb.head + (1 + i)) C (by omega) with hm | hm <;> omega
        rw [hstep, getD_set_ne _ _ _ _ _ hne]
        have h2 : rb.head + (1 + i) = rb.head + (i + 1) := by omega
        rw [h2, hlen (i + 1) (by omega)]
        have hidx : xs.length - rb.count + (i + 1) =
            (xs ++ [x]).length - rb.count + i := by
          simp only [List.length_append, List.length_cons, List.length_nil]
          omega
        rw [hidx, getD_append_left _ _ _ _ (by simp; omega)]


theorem rbinv_pushAll (C : Nat) (hC : 0 < C) (xs : List (List Nat)) :
    RBInv C xs (pushAll (ringbuf_init C) xs) := by
  induction xs using List.reverseRecOn with
  | nil => exact rbinv_init C hC
  | append_singleton ys y ih =>
    have hfold : pushAll (ringbuf_init C) (ys ++ [y]) =
        ringbuf_push (pushAll (ringbuf_init C) ys) y y.length := by
      simp [pushAll, List.foldl_append]
    rw [hfold]
    exact rbinv_push C hC ys _ ih y

/-! #### Consequences: the retained window (claims C2, C8) -/

theorem getD_drop {α : Type} (l : List α) (k i : Nat) (d : α) :
    (l.drop k).getD i d = l.getD (k + i) d := by
  induction l generalizing k with
  | nil => simp
  | cons x xs ih =>
    cases k with
    | zero => simp
    | succ n => simpa [Nat.succ_add] using ih n

theorem getD_mem {α : Type} (l : List α) (i : Nat) (d : α) (h : i < l.length) :
    l.getD i d ∈ l := by
  induction l generalizing i with
  | nil => simp at h
  | cons x xs ih =>
    cases i with
    | zero => simp
    | succ n =>
      exact List.mem_cons_of_mem x (ih n (by simpa using h))

theorem strndup_self (l : List Nat) (h : (0 : Nat) ∉ l) :
    strndup l l.length = l := by
  rw [strndup, List.take_length]
  exact takeWhile_ne_zero_of_not_mem l h

/-- C2: for every capacity `C ≥ 1` and every sequence of `n` pushes of
NUL-free lines, the count is `min n C` and `get 0 .. get (count-1)` return
exactly the last `min n C` pushed lines, oldest first.  (NUL-freedom is the
C-string reality: `ringbuf_push` stores lines with `strndup`, which stops at
the first NUL byte.) -/
theorem claim_C2_ring_window (C : Nat) (hC : 1 ≤ C) (xs : List (List Nat))
    (hnul : ∀ l ∈ xs, (0 : Nat) ∉ l) :
    (pushAll (ringbuf_init C) xs).count = min xs.length C ∧
    ∀ i, i < (pushAll (ringbuf_init C) xs).count →
      ringbuf_get (pushAll (ringbuf_init C) xs) i =
        ((xs.drop (xs.length - min xs.length C)).getD i [],
         ((xs.drop (xs.length - min xs.length C)).getD i []).length) := by
  obtain ⟨hcap, hll, hgl, hh, hc, hcont, hlen⟩ := rbinv_pushAll C (by omega) xs
  refine ⟨hc, ?_⟩
  intro i hi
  set rb := pushAll (ringbuf_init C) xs with hrb
  rw [ringbuf_get, if_neg (by omega), hcap]
  have hdrop : (xs.drop (xs.length - min xs.length C)).getD i [] =
      xs.getD (xs.length - rb.count + i) [] := by
    rw [getD_drop, hc]
  have hmem : xs.getD (xs.length - rb.count + i) [] ∈ xs := by
    apply getD_mem
    omega
  have hnl : (0 : Nat) ∉ xs.getD (xs.length - rb.count + i) [] := hnul _ hmem
  rw [hdrop]
  refine Prod.ext ?_ ?_
  · show rb.lines.getD ((rb.head + i) % C) [] = _
    rw [hcont i hi, strndup_self _ hnl]
  · show rb.lengths.getD ((rb.head + i) % C) 0 = _
    rw [hlen i hi]

/-- Witness for C2 at the spec example: capacity 3, pushes
"aaa","bbb","ccc","ddd" retain "bbb","ccc","ddd" oldest first. -/
theorem claim_C2_ring_window_witness :
    (pushAll (ringbuf_init 3)
        [[97, 97, 97], [98, 98, 98], [99, 99, 99], [100, 100, 100]]).count = 3 ∧
    ringbuf_get (pushAll (ringbuf_init 3)
        [[97, 97, 97], [98, 98, 98], [99, 99, 99], [100, 100, 100]]) 0 =
      ([98, 98, 98], 3) ∧
    ringbuf_get (pushAll (ringbuf_init 3)
        [[97, 97, 97], [98, 98, 98], [99, 99, 99], [100, 100, 100]]) 1 =
      ([99, 99, 99], 3) ∧
    ringbuf_get (pushAll (ringbuf_init 3)
        [[97, 97, 97], [98, 98, 98], [99, 99, 99], [100, 100, 100]]) 2 =
      ([100, 100, 100], 3) := by
  have h := claim_C2_ring_window 3 (by decide)
    [[97, 97, 97], [98, 98, 98], [99, 99, 99], [100, 100, 100]] (by decide)
  refine ⟨by rw [h.1]; decide, ?_, ?_, ?_⟩ <;>
    · rw [h.2 _ (by rw [h.1]; decide)]
      decide

/-- C8: `ringbuf_get` at any index at or beyond `count` (including `count`,
`count + 1`, and arbitrarily large indices) returns the empty result
`("", 0)` rather than reading a slot. -/
theorem claim_C8_get_out_of_range (rb : RingBuf) (i : Nat) (h : rb.count ≤ i) :
    ringbuf_get rb i = ([], 0) := by
  rw [ringbuf_get, if_pos (by omega)]

/-- Witness for C8: a buffer holding one line, probed at the count itself
and far beyond it. -/
theorem claim_C8_get_out_of_range_witness :
    ringbuf_get (pushAll (ringbuf_init 3) [[120]]) 1 = ([], 0) ∧
    ringbuf_get (pushAll (ringbuf_init 3) [[120]]) 2 = ([], 0) ∧
    ringbuf_get (pushAll (ringbuf_init 3) [[120]]) 1000000 = ([], 0) :=
  ⟨claim_C8_get_out_of_range _ 1 (by decide),
   claim_C8_get_out_of_range _ 2 (by decide),
   claim_C8_get_out_of_range _ 1000000 (by decide)⟩

/-! ### Line sanitizer (the display.c section of sash.c, `sanitize_line`)

```c
static size_t sanitize_line(char *dst, size_t dst_cap,
                            const char *src, size_t src_len)
```
Every store is `dst[col++] = ...`, so the destination is modelled as the
list of bytes written so far (`acc`, with `col = acc.length`); the C
function returns `col`, i.e. the length of the produced list.  The inner
`while (col < stop && col < dst_cap) dst[col++] = ' ';` of the tab branch
appends exactly `min stop dst_cap - col` spaces. -/

def sanitize_go (dst_cap : Nat) (acc : List Nat) : List Nat → List Nat
  | [] => acc
  | ch :: rest =>
    if dst_cap ≤ acc.length then acc
    else if ch = 10 ∨ ch = 13 then sanitize_go dst_cap acc rest
    else if ch = 9 then
      let stop := (acc.length / 8 + 1) * 8
      sanitize_go dst_cap
        (acc ++ List.replicate (min stop dst_cap - acc.length) 32) rest
    else if ch < 32 ∨ ch = 127 then sanitize_go dst_cap (acc ++ [46]) rest
    else sanitize_go dst_cap (acc ++ [ch]) rest

/-- `sanitize_line`: the loop reads `src[i]` for `i < src_len` only. -/
def sanitize_line (dst_cap : Nat) (src : List Nat) (src_len : Nat) : List Nat :=
  sanitize_go dst_cap [] (src.take src_len)

theorem sanitize_go_length (dst_cap : Nat) (l : List Nat) :
    ∀ acc : List Nat, acc.length ≤ dst_cap →
      (sanitize_go dst_cap acc l).length ≤ dst_cap := by
  induction l with
  | nil => intro acc h; exact h
  | cons ch rest ih =>
    intro acc h
    by_cases hfullacc : dst_cap ≤ acc.length
    · simpa [sanitize_go, hfullacc] using h
    · have hlt : acc.length < dst_cap := by omega
      by_cases hnl : ch = 10 ∨ ch = 13
      · simpa [sanitize_go, hfullacc, hnl] using ih acc h
      · by_cases htab : ch = 9
        · have hlen :
              (acc ++ List.replicate
                (min ((acc.length / 8 + 1) * 8) dst_cap - acc.length) 32).length ≤
                dst_cap := by
            simp only [List.length_append, List.length_replicate]
            omega
          simpa [sanitize_go, hfullacc, hnl, htab] using ih _ hlen
        · by_cases hctl : ch < 32 ∨ ch = 127
          · have hlen : (acc ++ [46]).length ≤ dst_cap := by
              simp only [List.length_append, List.length_cons, List.length_nil]
              omega
            simpa [sanitize_go, hfullacc, hnl, htab, hctl] using ih _ hlen
          · have hlen : (acc ++ [ch]).length ≤ dst_cap := by
              simp only [List.length_append, List.length_cons, List.length_nil]
              omega
            simpa [sanitize_go, hfullacc, hnl, htab, hctl] using ih _ hlen

theorem sanitize_go_mem (dst_cap : Nat) (l : List Nat) :
    ∀ acc : List Nat, (∀ b ∈ acc, 32 ≤ b ∧ b ≠ 127) →
      ∀ b ∈ sanitize_go dst_cap acc l, 32 ≤ b ∧ b ≠ 127 := by
  induction l with
  | nil => intro acc h; simpa [sanitize_go] using h
  | cons ch rest ih =>
    intro acc h
    by_cases hfullacc : dst_cap ≤ acc.length
    · simpa [sanitize_go, hfullacc] using h
    · by_cases hnl : ch = 10 ∨ ch = 13
      · simpa [sanitize_go, hfullacc, hnl] using ih acc h
      · by_cases htab : ch = 9
        · have hmem : ∀ b ∈ acc ++ List.replicate
              (min ((acc.length / 8 + 1) * 8) dst_cap - acc.length) 32,
              32 ≤ b ∧ b ≠ 127 := by
            intro b hb
            rcases List.mem_append.1 hb with hb | hb
            · exact h b hb
            · rw [List.eq_of_mem_replicate hb]
              omega
          simpa [sanitize_go, hfullacc, hnl, htab] using ih _ hmem
        · by_cases hctl : ch < 32 ∨ ch = 127
          · have hmem : ∀ b ∈ acc ++ [46], 32 ≤ b ∧ b ≠ 127 := by
              intro b hb
              rcases List.mem_append.1 hb with hb | hb
              · exact h b hb
              · simp only [List.mem_singleton] at hb
                omega
            simpa [sanitize_go, hfullacc, hnl, htab, hctl] using ih _ hmem
          · have hmem : ∀ b ∈ acc ++ [ch], 32 ≤ b ∧ b ≠ 127 := by
              intro b hb
              rcases List.mem_append.1 hb with hb | hb
              · exact h b hb
              · simp only [List.mem_singleton] at hb
                subst hb
                push_neg at hctl
                omega
            simpa [sanitize_go, hfullacc, hnl, htab, hctl] using ih _ hmem

/-- C5: the sanitizer writes at most `dst_cap` bytes (so it never reaches
past the caller-provided destination, which has room for `dst_cap + 1`
bytes at every call site), and its output contains no raw newline, carriage
return, other C0 control byte, or DEL: every output byte `b` has
`32 ≤ b` and `b ≠ 127`. -/
theorem claim_C5_sanitize_safety (dst_cap : Nat) (src : List Nat) (src_len : Nat) :
    (sanitize_line dst_cap src src_len).length ≤ dst_cap ∧
    ∀ b ∈ sanitize_line dst_cap src src_len, 32 ≤ b ∧ b ≠ 10 ∧ b ≠ 13 ∧ b ≠ 127 := by
  constructor
  · exact sanitize_go_length dst_cap _ [] (by simp)
  · intro b hb
    have := sanitize_go_mem dst_cap _ [] (by simp) b hb
    omega

/-- Witness for C5 on a concrete line containing a control byte, a newline
and a DEL byte. -/
theorem claim_C5_sanitize_safety_witness :
    (sanitize_line 80 [97, 1, 10, 127, 98] 5).length ≤ 80 ∧
    (32 ≤ 46 ∧ 46 ≠ 10 ∧ 46 ≠ 13 ∧ 46 ≠ 127) := by
  have h := claim_C5_sanitize_safety 80 [97, 1, 10, 127, 98] 5
  exact ⟨h.1, h.2 46 (by decide)⟩

/-- C9: sanitizing "a\tb" with column budget 80 in plain mode yields
"a       b" — seven spaces, so 'b' lands at column 8 — and tab expansion
(like every other step) never pushes the output beyond the column budget. -/
theorem claim_C9_tab_expansion :
    sanitize_line 80 [97, 9, 98] 3 = [97, 32, 32, 32, 32, 32, 32, 32, 98] ∧
    ∀ dst_cap src src_len,
      (sanitize_line dst_cap src src_len).length ≤ dst_cap := by
  constructor
  · decide
  · intro dst_cap src src_len
    exact sanitize_go_length dst_cap _ [] (by simp)

/-! ### Decorative-mode sanitizer (modelled from the spec)

The repository tests (tests/test_sanitize.c) exercise a decorative/ANSI
mode of the sanitizer (`g_ansi`), but the display.c revision that
implements it is not among the sources; only its unit tests and the
`g_ansi` declaration are.  The definitions below are therefore modelled
from the spec (section 4.2). -/

/-- The three scanning modes of the decorative-mode sanitizer: ordinary
text, the byte right after an ESC, and the body of an ESC-[ (CSI)
sequence. -/
inductive AnsiMode where
  | norm
  | esc
  | csi
  deriving Repr, DecidableEq

/-- Modelled from the spec: the decorative-mode (`g_ansi`) variant of
`sanitize_line`, which is missing from the sources (only its unit tests
survive).  Per spec 4.2: rules are applied left to right; trailing
newline/carriage-return bytes are dropped; tabs expand to spaces up to the
next multiple-of-8 column stop without exceeding the column budget; other
C0 control bytes and DEL become a dot and consume one column; a recognized
escape sequence (ESC `[` ... final byte in 0x40..0x7E, or ESC plus one
byte) is copied through unmodified and consumes zero columns; printable
bytes consume one column each and are copied only while the visible-column
budget `col < dst_cap` allows (matching the unit tests, escape sequences
still pass through after the budget is exhausted). -/
def ansi_go (dst_cap : Nat) (mode : AnsiMode) (col : Nat) (acc : List Nat) :
    List Nat → List Nat
  | [] => acc
  | ch :: rest =>
    match mode with
    | .esc =>
      if ch = 91 then ansi_go dst_cap .csi col (acc ++ [ch]) rest
      else ansi_go dst_cap .norm col (acc ++ [ch]) rest
    | .csi =>
      if 64 ≤ ch ∧ ch ≤ 126 then ansi_go dst_cap .norm col (acc ++ [ch]) rest
      else ansi_go dst_cap .csi col (acc ++ [ch]) rest
    | .norm =>
      if ch = 10 ∨ ch = 13 then ansi_go dst_cap .norm col acc rest
      else if ch = 9 then
        let stop := (col / 8 + 1) * 8
        let pad := min stop dst_cap - col
        ansi_go dst_cap .norm (col + pad) (acc ++ List.replicate pad 32) rest
      else if ch = 27 then ansi_go dst_cap .esc col (acc ++ [ch]) rest
      else if ch < 32 ∨ ch = 127 then
        if col < dst_cap then ansi_go dst_cap .norm (col + 1) (acc ++ [46]) rest
        else ansi_go dst_cap .norm col acc rest
      else
        if col < dst_cap then ansi_go dst_cap .norm (col + 1) (acc ++ [ch]) rest
        else ansi_go dst_cap .norm col acc rest

/-- Modelled from the spec: decorative-mode sanitization of a whole line. -/
def sanitize_line_ansi (dst_cap : Nat) (src : List Nat) : List Nat :=
  ansi_go dst_cap .norm 0 [] src

/-- A recognized escape sequence per spec 4.2: ESC followed by a single
byte (other than `[`), or ESC `[`, parameter bytes, and a final byte in
0x40..0x7E. -/
def IsEscSeq (e : List Nat) : Prop :=
  (∃ b, b ≠ 91 ∧ e = [27, b]) ∨
  (∃ ps t, (∀ p ∈ ps, ¬(64 ≤ p ∧ p ≤ 126)) ∧ (64 ≤ t ∧ t ≤ 126) ∧
    e = 27 :: 91 :: ps ++ [t])

theorem ansi_go_csi_scan (dst_cap col : Nat) (rest : List Nat) (ps : List Nat)
    (t : Nat) (hps : ∀ p ∈ ps, ¬(64 ≤ p ∧ p ≤ 126)) (ht : 64 ≤ t ∧ t ≤ 126) :
    ∀ acc : List Nat,
      ansi_go dst_cap .csi col acc (ps ++ t :: rest) =
        ansi_go dst_cap .norm col (acc ++ ps ++ [t]) rest := by
  induction ps with
  | nil =>
    intro acc
    simp [ansi_go, ht]
  | cons p ps ih =>
    intro acc
    have hp : ¬(64 ≤ p ∧ p ≤ 126) := hps p (List.mem_cons_self p ps)
    have hrec := ih (fun q hq => hps q (List.mem_cons_of_mem p hq)) (acc ++ [p])
    simp only [List.cons_append, ansi_go, List.append_eq]
    rw [if_neg hp, hrec]
    congr 1
    simp

/-- C4: in decorative mode, every recognized escape sequence (ESC `[` ...
final byte, or ESC plus one byte) is copied to the output unmodified and
contributes zero to the visible-column count (`col` is unchanged), while a
printable byte outside an escape sequence consumes exactly one column. -/
theorem claim_C4_ansi_passthrough (dst_cap : Nat) :
    (∀ (col : Nat) (acc rest e : List Nat), IsEscSeq e →
      ansi_go dst_cap .norm col acc (e ++ rest) =
        ansi_go dst_cap .norm col (acc ++ e) rest) ∧
    (∀ (col : Nat) (acc rest : List Nat) (ch : Nat),
      32 ≤ ch → ch ≠ 127 → col < dst_cap →
      ansi_go dst_cap .norm col acc (ch :: rest) =
        ansi_go dst_cap .norm (col + 1) (acc ++ [ch]) rest) := by
  constructor
  · intro col acc rest e he
    rcases he with ⟨b, hb, rfl⟩ | ⟨ps, t, hps, ht, rfl⟩
    · -- ESC plus a single byte
      simp [ansi_go, hb]
    · -- ESC [ parameters final
      have hscan := ansi_go_csi_scan dst_cap col rest ps t hps ht (acc ++ [27, 91])
      simp only [List.cons_append, ansi_go, List.append_eq, List.append_assoc,
        List.singleton_append] at hscan ⊢
      norm_num
      rw [hscan]
      simp
  · intro col acc rest ch h32 h127 hcol
    have h1 : ¬(ch = 10 ∨ ch = 13) := by omega
    have h2 : ch ≠ 9 := by omega
    have h3 : ch ≠ 27 := by omega
    have h4 : ¬(ch < 32 ∨ ch = 127) := by omega
    simp only [ansi_go]
    rw [if_neg h1, if_neg h2, if_neg h3, if_neg h4, if_pos hcol]

/-- Witness for C4 at the test vector: "\033[31m" passes through before
"red", and 'r' consumes one column. -/
theorem claim_C4_ansi_passthrough_witness :
    (ansi_go 80 .norm 0 [] ([27, 91, 51, 49, 109] ++ [114, 101, 100]) =
      ansi_go 80 .norm 0 ([] ++ [27, 91, 51, 49, 109]) [114, 101, 100]) ∧
    (ansi_go 80 .norm 0 [] ([114] ++ [101]) =
      ansi_go 80 .norm 1 ([] ++ [114]) [101]) := by
  have h := claim_C4_ansi_passthrough 80
  refine ⟨h.1 0 [] [114, 101, 100] [27, 91, 51, 49, 109] ?_,
    h.2 0 [] [101] 114 (by decide) (by decide) (by decide)⟩
  exact Or.inr ⟨[51, 49], 109, by decide, by decide, rfl⟩

/-! ### Display state (the globals of sash.c / display.c)

The process globals are gathered into one state record.  `dbuf` is the
growable draw buffer (`g_draw_buf`/`g_draw_len`; capacity management by
`dbuf_ensure` only affects allocation, not content, and is not modelled).
`tty_out` is the byte stream the terminal device has received, `stdout_out`
the passthrough stream; `files` are the sinks (`g_files`, a NULL entry is
`none`) and `diag` the indices reported on stderr by sink-write failures. -/

structure SashState where
  ring : RingBuf
  files : List (Option (List Nat))
  diag : List Nat
  is_tty : Bool
  line_numbers : Bool
  color : Bool
  win_height : Nat
  term_cols : Nat
  term_rows : Nat
  scroll_bottom : Nat
  win_top : Nat
  started : Bool
  resize_pending : Bool
  total_lines : Nat
  dbuf : List Nat
  tty_out : List Nat
  stdout_out : List Nat
  deriving Repr, DecidableEq

def dbuf_reset (st : SashState) : SashState := { st with dbuf := [] }

def dbuf_append (st : SashState) (s : List Nat) : SashState :=
  { st with dbuf := st.dbuf ++ s }

/-- `tty_write` (display.c): a single `write()` whose result is ignored;
`accepted` is how many bytes the device takes (a short or failed write
loses the tail of the buffer, and is not retried). -/
def tty_write (st : SashState) (buf : List Nat) (accepted : Nat) : SashState :=
  if st.is_tty ∧ 0 < buf.length then
    { st with tty_out := st.tty_out ++ buf.take accepted }
  else st

def dbuf_flush (st : SashState) (accepted : Nat) : SashState :=
  tty_write st st.dbuf accepted

/-- `get_terminal_size`: `io = some (ws_col, ws_row)` models a successful
ioctl, `none` a failed one; zero fields are ignored as in the C. -/
def get_terminal_size (st : SashState) (io : Option (Nat × Nat)) : SashState :=
  match io with
  | none => st
  | some (c, r) =>
    let st1 := if 0 < c then { st with term_cols := c } else st
    if 0 < r then { st1 with term_rows := r } else st1

/-! #### Escape-sequence vocabulary and decimal rendering -/

/-- ASCII decimal digits of `n`, fuel-based so that concrete frames reduce
by kernel evaluation (`fuel = n + 1` always suffices since `n / 10 < n`). -/
def decRepAux : Nat → Nat → List Nat
  | 0, _ => []
  | fuel + 1, n =>
    if n < 10 then [48 + n]
    else decRepAux fuel (n / 10) ++ [48 + n % 10]

def decRep (n : Nat) : List Nat := decRepAux (n + 1) n

/-- Cursor to row `row`, column 1 (the printf pattern ESC `[` %d `;1H`). -/
def cupRow1 (row : Nat) : List Nat := [27, 91] ++ decRep row ++ [59, 49, 72]

/-- Carriage return plus clear-line (ESC `[2K`). -/
def clearSeq : List Nat := [13, 27, 91, 50, 75]

/-- Hide cursor (ESC `[?25l`). -/
def hideCursorSeq : List Nat := [27, 91, 63, 50, 53, 108]

/-- Set scroll region rows 1..bottom (the printf pattern ESC `[1;` %d `r`). -/
def setRegionSeq (bottom : Nat) : List Nat :=
  [27, 91, 49, 59] ++ decRep bottom ++ [114]

/-- Reset scroll region to the full screen (ESC `[r`). -/
def resetRegionSeq : List Nat := [27, 91, 114]

/-- Bright-black foreground (ESC `[90m`). -/
def grayFgSeq : List Nat := [27, 91, 57, 48, 109]

/-- Attribute reset (ESC `[0m`). -/
def colorResetSeq : List Nat := [27, 91, 48, 109]

/-- UTF-8 box-drawing vertical bar, the gutter separator glyph. -/
def gutterBar : List Nat := [226, 148, 130]

/-- The printf pattern `%5zu`: right-aligned in a 5-column field. -/
def pad5 (n : Nat) : List Nat :=
  List.replicate (5 - (decRep n).length) 32 ++ decRep n

/-- The line-number gutter of a filled row (gray wrapping when color is
enabled, as emitted by build_redraw). -/
def numGutter (color : Bool) (n : Nat) : List Nat :=
  (if color then grayFgSeq else []) ++ pad5 n ++ gutterBar ++
    (if color then colorResetSeq else [])

/-- The blank gutter of an unfilled row: five spaces and the bar. -/
def blankGutter (color : Bool) : List Nat :=
  (if color then grayFgSeq else []) ++ List.replicate 5 32 ++ gutterBar ++
    (if color then colorResetSeq else [])

/-! #### Frame compositor (build_redraw) -/

/-- The height clamp repeated at the top of build_redraw, setup_window,
handle_resize and cleanup:
```c
int height = g_win_height;
if (height > g_term_rows - 1) height = g_term_rows - 1;
if (height < 1) height = 1;
``` -/
def clamp_height (req rows : Nat) : Nat :=
  let h := if rows - 1 < req then rows - 1 else req
  if h < 1 then 1 else h

/-- The effective window height of a state. -/
def eff_height (st : SashState) : Nat := clamp_height st.win_height st.term_rows

/-- Content width: the terminal width minus the 6-column line-number margin,
floored at 1. -/
def content_cols (st : SashState) : Nat :=
  let margin := if st.line_numbers then 6 else 0
  let c := st.term_cols - margin
  if c < 1 then 1 else c

/-- The first displayed line number (size_t arithmetic in the C; the main
loop increments `g_total_lines` before every push, so
`ring.count ≤ total_lines` holds in every reachable state and the
subtraction does not wrap). -/
def base_num (st : SashState) : Nat :=
  st.total_lines - min st.ring.count (eff_height st) + 1

/-- The logical history slot shown on `row`:
```c
if (g_ring.count <= (size_t)height) idx = row;
else                                idx = g_ring.count - height + row;
``` -/
def row_idx (count height row : Nat) : Nat :=
  if count ≤ height then row else count - height + row

/-- The bytes emitted for one row, clear-line included (without the
row-separating newline). -/
def row_bytes (ring : RingBuf) (lnum color : Bool)
    (height ccols base row : Nat) : List Nat :=
  clearSeq ++
    (if row < ring.count then
      (if lnum then numGutter color (base + row) else []) ++
        sanitize_line ccols (ringbuf_get ring (row_idx ring.count height row)).1
          (ringbuf_get ring (row_idx ring.count height row)).2
    else if lnum then blankGutter color else [])

/-- One iteration of build_redraw's row loop. -/
def draw_row_step (st : SashState) (height ccols base row : Nat) : SashState :=
  let st1 := dbuf_append st clearSeq
  let st2 :=
    if row < st1.ring.count then
      let idx := row_idx st1.ring.count height row
      let ln := ringbuf_get st1.ring idx
      let stg :=
        if st1.line_numbers then
          dbuf_append st1 (numGutter st1.color (base + row))
        else st1
      dbuf_append stg (sanitize_line ccols ln.1 ln.2)
    else
      if st1.line_numbers then dbuf_append st1 (blankGutter st1.color) else st1
  if row < height - 1 then dbuf_append st2 [10] else st2

/-- build_redraw's `for (row = 0; row < height; row++)` loop, recursing on
the number of remaining rows. -/
def draw_rows (height ccols base : Nat) : Nat → Nat → SashState → SashState
  | _, 0, st => st
  | row, rem + 1, st =>
    draw_rows height ccols base (row + 1) rem (draw_row_step st height ccols base row)

/-- `build_redraw`: move to the window top, draw each row, park the cursor
at the scroll-region bottom if a region is active.  Appends to the draw
buffer without resetting or flushing, as in the C. -/
def build_redraw (st : SashState) : SashState :=
  let st1 := dbuf_append st (cupRow1 st.win_top)
  let st2 := draw_rows (eff_height st) (content_cols st) (base_num st) 0 (eff_height st) st1
  if 0 < st2.scroll_bottom then dbuf_append st2 (cupRow1 st2.scroll_bottom) else st2

/-- `redraw_window`: reset, compose, emit as one write. -/
def redraw_window (st : SashState) (accepted : Nat) : SashState :=
  if st.is_tty then dbuf_flush (build_redraw (dbuf_reset st)) accepted else st

/-! #### Specification-level frame description -/

/-- The rows of one frame as separate byte lists. -/
def frame_rows (st : SashState) : List (List Nat) :=
  (List.range (eff_height st)).map
    (row_bytes st.ring st.line_numbers st.color (eff_height st) (content_cols st) (base_num st))

/-- Join rows with the newline the row loop emits between rows (after every
row but the last). -/
def joinRows : List (List Nat) → List Nat
  | [] => []
  | [r] => r
  | r :: rs => r ++ 10 :: joinRows rs

/-- The bytes one build_redraw call appends to the draw buffer. -/
def frame_bytes (st : SashState) : List Nat :=
  cupRow1 st.win_top ++ joinRows (frame_rows st) ++
    (if 0 < st.scroll_bottom then cupRow1 st.scroll_bottom else [])

/-! #### Window setup and resize (display.c) -/

/-- `setup_window`: measure, clamp, probe the cursor (`cursor_row` is the
probe result, 0 meaning unknown), place the window at the cursor when it
fits or flush against the bottom otherwise, then assemble filler newlines,
hide-cursor, optional scroll region and the initial frame into one buffer
and emit it with a single write. -/
def setup_window (st : SashState) (io : Option (Nat × Nat))
    (cursor_row accepted : Nat) : SashState :=
  if st.is_tty then
    let st1 := get_terminal_size st io
    let height := clamp_height st1.win_height st1.term_rows
    let fits := 0 < cursor_row ∧ cursor_row + height - 1 ≤ st1.term_rows
    let wt := if fits then cursor_row else st1.term_rows - height + 1
    let newlines := if fits then 0 else height - 1
    let st2 := { st1 with win_top := wt, scroll_bottom := wt - 1 }
    let st3 := dbuf_append (dbuf_reset st2) (List.replicate newlines 10)
    let st4 := dbuf_append st3 hideCursorSeq
    let st5 :=
      if 2 ≤ st4.scroll_bottom then dbuf_append st4 (setRegionSeq st4.scroll_bottom)
      else st4
    let st6 := dbuf_flush (build_redraw st5) accepted
    { st6 with started := true }
  else st

/-- `handle_resize`: clear the flag, re-measure, recompute the
bottom-anchored placement, then (when started) reinstall or clear the
scroll region and redraw, all in one buffer and one write. -/
def handle_resize (st : SashState) (io : Option (Nat × Nat))
    (accepted : Nat) : SashState :=
  let st1 := get_terminal_size { st with resize_pending := false } io
  let height := clamp_height st1.win_height st1.term_rows
  let wt := st1.term_rows - height + 1
  let st2 := { st1 with win_top := wt, scroll_bottom := wt - 1 }
  if st2.started then
    let st3 := dbuf_reset st2
    let st4 :=
      if 2 ≤ st3.scroll_bottom then dbuf_append st3 (setRegionSeq st3.scroll_bottom)
      else dbuf_append st3 resetRegionSeq
    dbuf_flush (build_redraw st4) accepted
  else st2

/-! #### Structure of one composed frame -/

/-- The bytes the row loop emits for rows `row, row+1, ...` (`rem` of them),
separators included. -/
def rows_bytes (ring : RingBuf) (lnum color : Bool)
    (height ccols base : Nat) : Nat → Nat → List Nat
  | _, 0 => []
  | row, rem + 1 =>
    row_bytes ring lnum color height ccols base row ++
      (if row < height - 1 then [10] else []) ++
      rows_bytes ring lnum color height ccols base (row + 1) rem

theorem draw_row_step_eq (st : SashState) (height ccols base row : Nat) :
    draw_row_step st height ccols base row =
      { st with dbuf := st.dbuf ++
          row_bytes st.ring st.line_numbers st.color height ccols base row ++
          (if row < height - 1 then [10] else []) } := by
  simp only [draw_row_step, dbuf_append, row_bytes]
  split_ifs <;> simp [List.append_assoc]

theorem draw_rows_eq (height ccols base : Nat) :
    ∀ (rem row : Nat) (st : SashState),
      draw_rows height ccols base row rem st =
        { st with dbuf := st.dbuf ++
            rows_bytes st.ring st.line_numbers st.color height ccols base row rem } := by
  intro rem
  induction rem with
  | zero =>
    intro row st
    simp [draw_rows, rows_bytes]
  | succ n ih =>
    intro row st
    simp only [draw_rows]
    rw [ih (row + 1) (draw_row_step st height ccols base row), draw_row_step_eq]
    simp [rows_bytes, List.append_assoc]

theorem rows_bytes_join (ring : RingBuf) (lnum color : Bool)
    (height ccols base : Nat) :
    ∀ rem row, row + rem = height →
      rows_bytes ring lnum color height ccols base row rem =
        joinRows ((List.range' row rem).map
          (row_bytes ring lnum color height ccols base)) := by
  intro rem
  induction rem with
  | zero =>
    intro row h
    simp [rows_bytes, joinRows]
  | succ n ih =>
    intro row h
    cases n with
    | zero =>
      have hlast : ¬row < height - 1 := by omega
      simp [rows_bytes, joinRows, List.range', hlast]
    | succ m =>
      have hmid : row < height - 1 := by omega
      have hr2 : List.range' row (m + 1 + 1) =
          row :: (row + 1) :: List.range' (row + 2) m := by
        simp [List.range']
      have hr3 : List.range' (row + 1) (m + 1) =
          (row + 1) :: List.range' (row + 2) m := by
        simp [List.range']
      rw [rows_bytes, ih (row + 1) (by omega), if_pos hmid, hr2, hr3]
      simp [joinRows, List.append_assoc]

theorem build_redraw_eq (st : SashState) :
    build_redraw st = { st with dbuf := st.dbuf ++ frame_bytes st } := by
  have hjoin : rows_bytes st.ring st.line_numbers st.color (eff_height st)
      (content_cols st) (base_num st) 0 (eff_height st) =
      joinRows (frame_rows st) := by
    rw [rows_bytes_join st.ring st.line_numbers st.color (eff_height st)
      (content_cols st) (base_num st) (eff_height st) 0 (by omega)]
    rw [frame_rows, List.range_eq_range']
  simp only [build_redraw, dbuf_append]
  rw [draw_rows_eq]
  simp only [frame_bytes]
  split_ifs with h <;>
    simp [hjoin, List.append_assoc, h]

theorem clamp_height_pos (req rows : Nat) : 1 ≤ clamp_height req rows := by
  simp only [clamp_height]
  split_ifs <;> omega

theorem eff_height_pos (st : SashState) : 1 ≤ eff_height st :=
  clamp_height_pos st.win_height st.term_rows

theorem getD_range_map {α : Type} (f : Nat → α) (h row : Nat) (d : α)
    (hr : row < h) : ((List.range h).map f).getD row d = f row := by
  induction h generalizing row with
  | zero => omega
  | succ n ih =>
    rcases Nat.lt_or_ge row n with hlt | hge
    · rw [List.range_succ, List.map_append,
        getD_append_left _ _ _ _ (by simpa using hlt)]
      exact ih row hlt
    · have hrow : row = n := by omega
      subst hrow
      rw [List.range_succ, List.map_append,
        getD_append_right _ _ _ _ (by simp)]
      simp

/-- C10: composing a frame touches only the draw buffer — after
`build_redraw` (and after `redraw_window`, which additionally emits the
buffer to the terminal device) the ring buffer, the total-line counter and
all terminal geometry fields are exactly what they were before. -/
theorem claim_C10_frame_effect (st : SashState) (accepted : Nat) :
    ((build_redraw st).ring = st.ring ∧
     (build_redraw st).total_lines = st.total_lines ∧
     (build_redraw st).term_rows = st.term_rows ∧
     (build_redraw st).term_cols = st.term_cols ∧
     (build_redraw st).win_top = st.win_top ∧
     (build_redraw st).scroll_bottom = st.scroll_bottom ∧
     (build_redraw st).win_height = st.win_height) ∧
    ((redraw_window st accepted).ring = st.ring ∧
     (redraw_window st accepted).total_lines = st.total_lines ∧
     (redraw_window st accepted).term_rows = st.term_rows ∧
     (redraw_window st accepted).term_cols = st.term_cols ∧
     (redraw_window st accepted).win_top = st.win_top ∧
     (redraw_window st accepted).scroll_bottom = st.scroll_bottom ∧
     (redraw_window st accepted).win_height = st.win_height) := by
  constructor
  · rw [build_redraw_eq]
    exact ⟨rfl, rfl, rfl, rfl, rfl, rfl, rfl⟩
  · rw [redraw_window]
    split_ifs with h
    · rw [build_redraw_eq]
      simp only [dbuf_flush, tty_write, dbuf_reset]
      split_ifs <;> exact ⟨rfl, rfl, rfl, rfl, rfl, rfl, rfl⟩
    · exact ⟨rfl, rfl, rfl, rfl, rfl, rfl, rfl⟩

/-- C3: the bytes build_redraw appends are the cursor move to the window
top, then exactly `height` rows joined by single newlines, then the
cursor-park; each row is clear-line followed by either the (gutter and)
sanitized content of the history entry at the mapped index, or the blank
gutter alone when the row has no history entry yet; the index mapping
sends consecutive rows to consecutive history slots and, whenever the
history can fill the window, puts the newest entry on the last row. -/
theorem claim_C3_frame_structure (st : SashState) :
    (build_redraw st).dbuf =
      st.dbuf ++ cupRow1 st.win_top ++ joinRows (frame_rows st) ++
        (if 0 < st.scroll_bottom then cupRow1 st.scroll_bottom else []) ∧
    (frame_rows st).length = eff_height st ∧
    (∀ row, row < eff_height st →
      (frame_rows st).getD row [] =
        clearSeq ++
          (if row < st.ring.count then
            (if st.line_numbers then numGutter st.color (base_num st + row) else []) ++
              sanitize_line (content_cols st)
                (ringbuf_get st.ring (row_idx st.ring.count (eff_height st) row)).1
                (ringbuf_get st.ring (row_idx st.ring.count (eff_height st) row)).2
          else if st.line_numbers then blankGutter st.color else [])) ∧
    (eff_height st ≤ st.ring.count →
      row_idx st.ring.count (eff_height st) (eff_height st - 1) = st.ring.count - 1) ∧
    (∀ row, row_idx st.ring.count (eff_height st) (row + 1) =
      row_idx st.ring.count (eff_height st) row + 1) := by
  refine ⟨?_, ?_, ?_, ?_, ?_⟩
  · rw [build_redraw_eq]
    simp [frame_bytes, List.append_assoc]
  · simp [frame_rows]
  · intro row hrow
    rw [frame_rows, getD_range_map _ _ _ _ hrow]
    rfl
  · intro hge
    have hpos := eff_height_pos st
    simp only [row_idx]
    split_ifs <;> omega
  · intro row
    simp only [row_idx]
    split_ifs <;> omega

/-- A concrete started state for the frame-structure witness: capacity-3
history holding its last three of four lines, window height 3, line
numbers on. -/
def exC3 : SashState :=
  { ring := pushAll (ringbuf_init 3) [[97], [98], [99], [100]]
    files := []
    diag := []
    is_tty := true
    line_numbers := true
    color := false
    win_height := 3
    term_cols := 20
    term_rows := 24
    scroll_bottom := 21
    win_top := 22
    started := true
    resize_pending := false
    total_lines := 4
    dbuf := []
    tty_out := []
    stdout_out := [] }

/-- Witness for C3: at `exC3`, row 0 of the frame is gutter plus sanitized
content, and the newest entry lands on the last row. -/
theorem claim_C3_frame_structure_witness :
    ((frame_rows exC3).getD 0 [] =
      clearSeq ++
        (if 0 < exC3.ring.count then
          (if exC3.line_numbers then numGutter exC3.color (base_num exC3 + 0) else []) ++
            sanitize_line (content_cols exC3)
              (ringbuf_get exC3.ring (row_idx exC3.ring.count (eff_height exC3) 0)).1
              (ringbuf_get exC3.ring (row_idx exC3.ring.count (eff_height exC3) 0)).2
        else if exC3.line_numbers then blankGutter exC3.color else [])) ∧
    row_idx exC3.ring.count (eff_height exC3) (eff_height exC3 - 1) =
      exC3.ring.count - 1 := by
  have h := claim_C3_frame_structure exC3
  exact ⟨h.2.2.1 0 (by decide), h.2.2.2.1 (by decide)⟩



theorem frame_bytes_congr (st st2 : SashState)
    (h1 : st.ring = st2.ring) (h2 : st.line_numbers = st2.line_numbers)
    (h3 : st.color = st2.color) (h4 : st.win_height = st2.win_height)
    (h5 : st.term_cols = st2.term_cols) (h6 : st.term_rows = st2.term_rows)
    (h7 : st.win_top = st2.win_top) (h8 : st.scroll_bottom = st2.scroll_bottom)
    (h9 : st.total_lines = st2.total_lines) :
    frame_bytes st = frame_bytes st2 := by
  simp only [frame_bytes, frame_rows, eff_height, content_cols, base_num,
    h1, h2, h3, h4, h5, h6, h7, h8, h9]

theorem gts_preserves (st : SashState) (io : Option (Nat × Nat)) :
    ∃ c r, get_terminal_size st io = { st with term_cols := c, term_rows := r } := by
  cases io with
  | none => exact ⟨st.term_cols, st.term_rows, rfl⟩
  | some cr =>
    obtain ⟨c, r⟩ := cr
    simp only [get_terminal_size]
    split_ifs <;> exact ⟨_, _, rfl⟩

def resize_state (st : SashState) (io : Option (Nat × Nat)) : SashState :=
  let st1 := get_terminal_size { st with resize_pending := false } io
  let height := clamp_height st1.win_height st1.term_rows
  let wt := st1.term_rows - height + 1
  { st1 with win_top := wt, scroll_bottom := wt - 1 }

theorem handle_resize_eq (st : SashState) (io : Option (Nat × Nat))
    (accepted : Nat) (hst : st.started = true) :
    handle_resize st io accepted =
      dbuf_flush
        { resize_state st io with
          dbuf := (if 2 ≤ (resize_state st io).scroll_bottom
              then setRegionSeq (resize_state st io).scroll_bottom
              else resetRegionSeq) ++
            frame_bytes (resize_state st io) }
        accepted := by
  obtain ⟨c, r, hgts⟩ := gts_preserves { st with resize_pending := false } io
  simp only [handle_resize, resize_state, dbuf_reset, dbuf_append, hgts]
  rw [if_pos hst]
  split_ifs with h <;> rw [build_redraw_eq] <;> rfl

theorem dbuf_flush_eq (st : SashState) (accepted : Nat) :
    dbuf_flush st accepted =
      { st with tty_out := st.tty_out ++
          (if st.is_tty ∧ 0 < st.dbuf.length then st.dbuf.take accepted else []) } := by
  simp only [dbuf_flush, tty_write]
  split_ifs with h
  · rfl
  · simp

def new_rows (st : SashState) (io : Option (Nat × Nat)) : Nat :=
  (get_terminal_size st io).term_rows

theorem gts_rows_rp (st : SashState) (io : Option (Nat × Nat)) :
    (get_terminal_size { st with resize_pending := false } io).term_rows =
      new_rows st io := by
  cases io with
  | none => rfl
  | some cr =>
    obtain ⟨c, r⟩ := cr
    simp only [new_rows, get_terminal_size]
    split_ifs <;> rfl

def setup_state (st : SashState) (io : Option (Nat × Nat)) (cursor_row : Nat) :
    SashState :=
  let st1 := get_terminal_size st io
  let height := clamp_height st1.win_height st1.term_rows
  let wt := if 0 < cursor_row ∧ cursor_row + height - 1 ≤ st1.term_rows
    then cursor_row else st1.term_rows - height + 1
  { st1 with win_top := wt, scroll_bottom := wt - 1 }

def setup_newlines (st : SashState) (io : Option (Nat × Nat)) (cursor_row : Nat) :
    Nat :=
  let st1 := get_terminal_size st io
  let height := clamp_height st1.win_height st1.term_rows
  if 0 < cursor_row ∧ cursor_row + height - 1 ≤ st1.term_rows then 0
  else height - 1

theorem setup_window_eq (st : SashState) (io : Option (Nat × Nat))
    (cursor_row accepted : Nat) (htty : st.is_tty = true) :
    setup_window st io cursor_row accepted =
      { dbuf_flush
          { setup_state st io cursor_row with
            dbuf := List.replicate (setup_newlines st io cursor_row) 10 ++
              hideCursorSeq ++
              (if 2 ≤ (setup_state st io cursor_row).scroll_bottom
                then setRegionSeq (setup_state st io cursor_row).scroll_bottom
                else []) ++
              frame_bytes (setup_state st io cursor_row) }
          accepted
        with started := true } := by
  obtain ⟨c, r, hgts⟩ := gts_preserves st io
  simp only [setup_window, setup_state, setup_newlines, dbuf_reset, dbuf_append, hgts]
  rw [if_pos htty]
  split_ifs with h1 h2 h2 <;> rw [build_redraw_eq] <;>
    first
      | rfl
      | simp [dbuf_flush_eq, frame_bytes, frame_rows, eff_height, content_cols,
          base_num, List.append_assoc]

theorem clamp_height_closed (req rows : Nat) :
    clamp_height req rows = max 1 (min req (rows - 1)) := by
  simp only [clamp_height]
  split_ifs <;> omega

/-- C6 claim. -/
theorem claim_C6_resize (st : SashState) (io : Option (Nat × Nat))
    (accepted : Nat) (hst : st.started = true) :
    (handle_resize st io accepted).win_top =
      new_rows st io - clamp_height st.win_height (new_rows st io) + 1 ∧
    (handle_resize st io accepted).scroll_bottom =
      (handle_resize st io accepted).win_top - 1 ∧
    clamp_height st.win_height (new_rows st io) =
      max 1 (min st.win_height (new_rows st io - 1)) ∧
    (handle_resize st io accepted).dbuf =
      (if 2 ≤ (handle_resize st io accepted).scroll_bottom
        then setRegionSeq (handle_resize st io accepted).scroll_bottom
        else resetRegionSeq) ++ frame_bytes (handle_resize st io accepted) := by
  have heq := handle_resize_eq st io accepted hst
  obtain ⟨c, r, hgts⟩ := gts_preserves { st with resize_pending := false } io
  have hr : new_rows st io = r := by
    rw [← gts_rows_rp st io, hgts]
  have hwt : (handle_resize st io accepted).win_top =
      (resize_state st io).win_top := by
    rw [heq, dbuf_flush_eq]
  have hsb : (handle_resize st io accepted).scroll_bottom =
      (resize_state st io).scroll_bottom := by
    rw [heq, dbuf_flush_eq]
  have hdbuf : (handle_resize st io accepted).dbuf =
      (if 2 ≤ (resize_state st io).scroll_bottom
        then setRegionSeq (resize_state st io).scroll_bottom
        else resetRegionSeq) ++ frame_bytes (resize_state st io) := by
    rw [heq, dbuf_flush_eq]
  have hfb : frame_bytes (handle_resize st io accepted) =
      frame_bytes (resize_state st io) := by
    rw [heq, dbuf_flush_eq]
    exact frame_bytes_congr _ _ rfl rfl rfl rfl rfl rfl rfl rfl rfl
  refine ⟨?_, ?_, clamp_height_closed _ _, ?_⟩
  · rw [hwt, hr]
    simp only [resize_state, hgts]
  · rw [hsb, hwt]
    simp only [resize_state, hgts]
  · rw [hdbuf, hsb, hfb]

/-- C7 claim. -/
theorem claim_C7_setup (st : SashState) (io : Option (Nat × Nat))
    (cursor_row accepted : Nat) (htty : st.is_tty = true) :
    (setup_window st io cursor_row accepted).win_top =
      (if 0 < cursor_row ∧
          cursor_row + clamp_height st.win_height (new_rows st io) - 1 ≤ new_rows st io
        then cursor_row
        else new_rows st io - clamp_height st.win_height (new_rows st io) + 1) ∧
    (setup_window st io cursor_row accepted).scroll_bottom =
      (setup_window st io cursor_row accepted).win_top - 1 ∧
    (setup_window st io cursor_row accepted).dbuf =
      List.replicate
        (if 0 < cursor_row ∧
            cursor_row + clamp_height st.win_height (new_rows st io) - 1 ≤ new_rows st io
          then 0 else clamp_height st.win_height (new_rows st io) - 1) 10 ++
      hideCursorSeq ++
      (if 2 ≤ (setup_window st io cursor_row accepted).scroll_bottom
        then setRegionSeq (setup_window st io cursor_row accepted).scroll_bottom
        else []) ++
      frame_bytes (setup_window st io cursor_row accepted) ∧
    (setup_window st io cursor_row accepted).started = true := by
  have heq := setup_window_eq st io cursor_row accepted htty
  obtain ⟨c, r, hgts⟩ := gts_preserves st io
  have hr : new_rows st io = r := by
    rw [new_rows, hgts]
  have hwt : (setup_window st io cursor_row accepted).win_top =
      (setup_state st io cursor_row).win_top := by
    rw [heq, dbuf_flush_eq]
  have hsb : (setup_window st io cursor_row accepted).scroll_bottom =
      (setup_state st io cursor_row).scroll_bottom := by
    rw [heq, dbuf_flush_eq]
  have hdbuf : (setup_window st io cursor_row accepted).dbuf =
      List.replicate (setup_newlines st io cursor_row) 10 ++ hideCursorSeq ++
        (if 2 ≤ (setup_state st io cursor_row).scroll_bottom
          then setRegionSeq (setup_state st io cursor_row).scroll_bottom
          else []) ++
        frame_bytes (setup_state st io cursor_row) := by
    rw [heq, dbuf_flush_eq]
  have hfb : frame_bytes (setup_window st io cursor_row accepted) =
      frame_bytes (setup_state st io cursor_row) := by
    rw [heq, dbuf_flush_eq]
    exact frame_bytes_congr _ _ rfl rfl rfl rfl rfl rfl rfl rfl rfl
  refine ⟨?_, ?_, ?_, ?_⟩
  · rw [hwt, hr]
    simp only [setup_state, hgts]
  · rw [hsb, hwt]
    simp only [setup_state, hgts]
  · rw [hdbuf, hsb, hfb, hr]
    simp only [setup_newlines, hgts]
  · rw [heq]

/-- A started state on an 80x24 terminal with requested height 10, about to
handle a resize to 80x10 (the spec example for C6). -/
def exC6 : SashState :=
  { ring := ringbuf_init 10
    files := []
    diag := []
    is_tty := true
    line_numbers := false
    color := false
    win_height := 10
    term_cols := 80
    term_rows := 24
    scroll_bottom := 14
    win_top := 15
    started := true
    resize_pending := true
    total_lines := 0
    dbuf := []
    tty_out := []
    stdout_out := [] }

/-- Witness for C6 at the spec example: resize 80x24 to 80x10 with request
10 clamps the height to 9, anchors the window at rows 2..10, and emits the
full-screen scroll-region reset. -/
theorem claim_C6_resize_witness :
    (handle_resize exC6 (some (80, 10)) 7).win_top = 2 ∧
    (handle_resize exC6 (some (80, 10)) 7).scroll_bottom = 1 ∧
    clamp_height exC6.win_height (new_rows exC6 (some (80, 10))) = 9 ∧
    (handle_resize exC6 (some (80, 10)) 7).dbuf =
      resetRegionSeq ++ frame_bytes (handle_resize exC6 (some (80, 10)) 7) := by
  have h := claim_C6_resize exC6 (some (80, 10)) 7 rfl
  refine ⟨?_, ?_, ?_, ?_⟩
  · rw [h.1]; decide
  · rw [h.2.1, h.1]; decide
  · rw [h.2.2.1]; decide
  · have hsb : (handle_resize exC6 (some (80, 10)) 7).scroll_bottom = 1 := by
      rw [h.2.1, h.1]; decide
    rw [h.2.2.2, hsb]
    norm_num

/-- A freshly initialized state on a 24-row terminal with requested height 5
(the spec example for C7).  The probe will report the cursor at row 20. -/
def exC7 : SashState :=
  { ring := ringbuf_init 5
    files := []
    diag := []
    is_tty := true
    line_numbers := false
    color := false
    win_height := 5
    term_cols := 80
    term_rows := 24
    scroll_bottom := 0
    win_top := 0
    started := false
    resize_pending := false
    total_lines := 0
    dbuf := []
    tty_out := []
    stdout_out := [] }

/-- Witness for C7 at the spec example: height 5 on a 24-row terminal with
the cursor probed at row 20 places the window at rows 20..24 with no filler
newlines and the scroll region installed over rows 1..19. -/
theorem claim_C7_setup_witness :
    (setup_window exC7 (some (80, 24)) 20 999).win_top = 20 ∧
    (setup_window exC7 (some (80, 24)) 20 999).scroll_bottom = 19 ∧
    (setup_window exC7 (some (80, 24)) 20 999).dbuf =
      hideCursorSeq ++ setRegionSeq 19 ++
        frame_bytes (setup_window exC7 (some (80, 24)) 20 999) ∧
    (setup_window exC7 (some (80, 24)) 20 999).started = true := by
  have h := claim_C7_setup exC7 (some (80, 24)) 20 999 rfl
  refine ⟨?_, ?_, ?_, h.2.2.2⟩
  · rw [h.1]; decide
  · rw [h.2.1, h.1]; decide
  · have hsb : (setup_window exC7 (some (80, 24)) 20 999).scroll_bottom = 19 := by
      rw [h.2.1, h.1]; decide
    have hfits : 0 < 20 ∧
        20 + clamp_height exC7.win_height (new_rows exC7 (some (80, 24))) - 1 ≤
          new_rows exC7 (some (80, 24)) := by decide
    rw [h.2.2.1, hsb, if_pos hfits]
    simp

/-! ### The tee data path (write_to_files and the main loop body)

`write_to_files` iterates the sink array:
```c
for (int i = 0; i < g_nfiles; i++)
    if (g_files[i]) {
        if (fwrite(buf, 1, len, g_files[i]) < len) {
            fprintf(stderr, ...);
            fclose(g_files[i]); g_files[i] = NULL;
        } else if (g_flush) fflush(g_files[i]);
    }
```
`accept i` is the number of bytes sink `i`'s fwrite takes on this call (a
short count means failure); a closed/NULL sink is `none`.  `fflush` does
not change sink content and is not modelled. -/

/-- One sink's fwrite-or-skip: a NULL sink is skipped; a full write appends
the buffer; a short write closes the sink and flags one diagnostic. -/
def write_one (buf : List Nat) (k : Nat) :
    Option (List Nat) → Option (List Nat) × Bool
  | none => (none, false)
  | some s => if buf.length ≤ k then (some (s ++ buf), false) else (none, true)

/-- The sink loop from index `i`: the new sink list plus the indices
reported on stderr, in order. -/
def wtf_go (buf : List Nat) (accept : Nat → Nat) (i : Nat) :
    List (Option (List Nat)) → List (Option (List Nat)) × List Nat
  | [] => ([], [])
  | f :: fs =>
    let r := write_one buf (accept i) f
    let rest := wtf_go buf accept (i + 1) fs
    (r.1 :: rest.1, (if r.2 then [i] else []) ++ rest.2)

def write_to_files (buf : List Nat) (accept : Nat → Nat)
    (files : List (Option (List Nat))) : List (Option (List Nat)) × List Nat :=
  wtf_go buf accept 0 files

/-- One iteration of the main loop for a complete input line (`nread =
line.length`, terminator included): drain the resize flag, bump the
total-line counter, tee to the sinks, then display (push + redraw) on a
terminal or pass through to stdout. -/
def process_line (st : SashState) (line : List Nat) (accept : Nat → Nat)
    (io : Option (Nat × Nat)) (ta1 ta2 : Nat) : SashState :=
  let st1 := if st.resize_pending then handle_resize st io ta1 else st
  let st2 := { st1 with total_lines := st1.total_lines + 1 }
  let w := write_to_files line accept st2.files
  let st3 := { st2 with files := w.1, diag := st2.diag ++ w.2 }
  if st3.is_tty then
    redraw_window { st3 with ring := ringbuf_push st3.ring line line.length } ta2
  else
    { st3 with stdout_out := st3.stdout_out ++ line }

/-! #### Sink-loop lemmas -/

theorem getD_of_ge {α : Type} (l : List α) (i : Nat) (d : α)
    (h : l.length ≤ i) : l.getD i d = d := by
  induction l generalizing i with
  | nil => simp
  | cons x xs ih =>
    cases i with
    | zero => simp at h
    | succ n => simpa using ih n (by simpa using h)

theorem wtf_go_length (buf : List Nat) (accept : Nat → Nat) :
    ∀ (fs : List (Option (List Nat))) (i : Nat),
      (wtf_go buf accept i fs).1.length = fs.length := by
  intro fs
  induction fs with
  | nil => intro i; rfl
  | cons f fs ih => intro i; simp [wtf_go, ih]

theorem wtf_go_getD (buf : List Nat) (accept : Nat → Nat) :
    ∀ (fs : List (Option (List Nat))) (i j : Nat), j < fs.length →
      (wtf_go buf accept i fs).1.getD j none =
        (write_one buf (accept (i + j)) (fs.getD j none)).1 := by
  intro fs
  induction fs with
  | nil => intro i j h; simp at h
  | cons f fs ih =>
    intro i j h
    cases j with
    | zero => simp [wtf_go]
    | succ m =>
      have hrec := ih (i + 1) m (by simpa using h)
      rw [show i + (m + 1) = i + 1 + m by omega]
      simpa [wtf_go] using hrec

theorem wtf_go_diag_ge (buf : List Nat) (accept : Nat → Nat) :
    ∀ (fs : List (Option (List Nat))) (i x : Nat),
      x ∈ (wtf_go buf accept i fs).2 → i ≤ x := by
  intro fs
  induction fs with
  | nil => intro i x hx; simp [wtf_go] at hx
  | cons f fs ih =>
    intro i x hx
    simp only [wtf_go, List.mem_append] at hx
    rcases hx with hx | hx
    · split_ifs at hx
      · simp only [List.mem_singleton] at hx
        omega
      · simp at hx
    · have := ih (i + 1) x hx
      omega

theorem wtf_go_count (buf : List Nat) (accept : Nat → Nat) :
    ∀ (fs : List (Option (List Nat))) (i j : Nat),
      (wtf_go buf accept i fs).2.count (i + j) =
        (if j < fs.length ∧ (write_one buf (accept (i + j)) (fs.getD j none)).2
          then 1 else 0) := by
  intro fs
  induction fs with
  | nil => intro i j; simp [wtf_go]
  | cons f fs ih =>
    intro i j
    simp only [wtf_go, List.count_append]
    cases j with
    | zero =>
      have hrest : (wtf_go buf accept (i + 1) fs).2.count i = 0 := by
        rw [List.count_eq_zero]
        intro hmem
        have := wtf_go_diag_ge buf accept fs (i + 1) i hmem
        omega
      simp only [Nat.add_zero, List.getD_cons_zero, hrest]
      by_cases hr : (write_one buf (accept i) f).2 <;> simp [hr]
    | succ m =>
      have hfirst :
          (if (write_one buf (accept i) f).2 then [i] else []).count (i + (m + 1)) = 0 := by
        rw [List.count_eq_zero]
        intro hmem
        split_ifs at hmem
        · simp only [List.mem_singleton] at hmem
          omega
        · simp at hmem
      rw [hfirst, Nat.zero_add, show i + (m + 1) = i + 1 + m by omega, ih (i + 1) m]
      simp

/-- The per-sink behavior of one `write_to_files` call. -/
theorem write_to_files_spec (line : List Nat) (accept : Nat → Nat)
    (files : List (Option (List Nat))) :
    (write_to_files line accept files).1.length = files.length ∧
    (∀ i s, files.getD i none = some s → line.length ≤ accept i →
      (write_to_files line accept files).1.getD i none = some (s ++ line) ∧
      (write_to_files line accept files).2.count i = 0) ∧
    (∀ i s, files.getD i none = some s → accept i < line.length →
      (write_to_files line accept files).1.getD i none = none ∧
      (write_to_files line accept files).2.count i = 1) ∧
    (∀ i, files.getD i none = none →
      (write_to_files line accept files).1.getD i none = none ∧
      (write_to_files line accept files).2.count i = 0) := by
  refine ⟨wtf_go_length line accept files 0, ?_, ?_, ?_⟩
  · intro i s hs hacc
    have hi : i < files.length := by
      by_contra hge
      rw [getD_of_ge _ _ _ (by omega)] at hs
      exact Option.noConfusion hs
    constructor
    · rw [write_to_files, wtf_go_getD line accept files 0 i hi, Nat.zero_add, hs]
      simp [write_one, hacc]
    · have hc := wtf_go_count line accept files 0 i
      rw [Nat.zero_add, hs] at hc
      rw [write_to_files, hc]
      simp [write_one, hacc]
  · intro i s hs hacc
    have hi : i < files.length := by
      by_contra hge
      rw [getD_of_ge _ _ _ (by omega)] at hs
      exact Option.noConfusion hs
    constructor
    · rw [write_to_files, wtf_go_getD line accept files 0 i hi, Nat.zero_add, hs]
      simp [write_one, Nat.not_le.2 hacc]
    · have hc := wtf_go_count line accept files 0 i
      rw [Nat.zero_add, hs] at hc
      rw [write_to_files, hc]
      simp [write_one, hi, Nat.not_le.2 hacc]
  · intro i hs
    rcases Nat.lt_or_ge i files.length with hi | hi
    · constructor
      · rw [write_to_files, wtf_go_getD line accept files 0 i hi, Nat.zero_add, hs]
        rfl
      · have hc := wtf_go_count line accept files 0 i
        rw [Nat.zero_add, hs] at hc
        rw [write_to_files, hc]
        simp [write_one]
    · constructor
      · rw [write_to_files, getD_of_ge _ _ _ (by rw [wtf_go_length]; omega)]
      · have hc := wtf_go_count line accept files 0 i
        rw [Nat.zero_add] at hc
        rw [write_to_files, hc]
        simp
        omega

/-! #### Display operations never touch the tee state -/

theorem handle_resize_data (st : SashState) (io : Option (Nat × Nat)) (ta : Nat) :
    (handle_resize st io ta).files = st.files ∧
    (handle_resize st io ta).diag = st.diag ∧
    (handle_resize st io ta).is_tty = st.is_tty ∧
    (handle_resize st io ta).stdout_out = st.stdout_out ∧
    (handle_resize st io ta).total_lines = st.total_lines := by
  obtain ⟨c, r, hgts⟩ := gts_preserves { st with resize_pending := false } io
  simp only [handle_resize, dbuf_reset, dbuf_append, hgts]
  split_ifs <;>
    first
      | exact ⟨rfl, rfl, rfl, rfl, rfl⟩
      | (rw [build_redraw_eq, dbuf_flush_eq]; exact ⟨rfl, rfl, rfl, rfl, rfl⟩)

theorem redraw_window_data (st : SashState) (ta : Nat) :
    (redraw_window st ta).files = st.files ∧
    (redraw_window st ta).diag = st.diag ∧
    (redraw_window st ta).stdout_out = st.stdout_out := by
  simp only [redraw_window]
  split_ifs
  · rw [build_redraw_eq, dbuf_flush_eq]
    exact ⟨rfl, rfl, rfl⟩
  · exact ⟨rfl, rfl, rfl⟩

/-- The tee outcome of one loop iteration is exactly the pure
`write_to_files` result on the pre-state's sinks. -/
theorem process_line_files (st : SashState) (line : List Nat)
    (accept : Nat → Nat) (io : Option (Nat × Nat)) (ta1 ta2 : Nat) :
    (process_line st line accept io ta1 ta2).files =
      (write_to_files line accept st.files).1 ∧
    (process_line st line accept io ta1 ta2).diag =
      st.diag ++ (write_to_files line accept st.files).2 := by
  by_cases hrp : st.resize_pending
  · obtain ⟨hf, hd, htty, hso, htot⟩ := handle_resize_data st io ta1
    simp only [process_line, if_pos hrp, hf, hd]
    split_ifs with h3
    · obtain ⟨rf, rd, rs⟩ := redraw_window_data _ ta2
      exact ⟨by rw [rf], by rw [rd]⟩
    · exact ⟨rfl, rfl⟩
  · simp only [process_line, if_neg hrp]
    split_ifs with h3
    · obtain ⟨rf, rd, rs⟩ := redraw_window_data _ ta2
      exact ⟨by rw [rf], by rw [rd]⟩
    · exact ⟨rfl, rfl⟩

/-- C1: for every loop iteration, every open sink receives the raw line
bytes, terminator included, appended verbatim; a sink whose write falls
short is closed with exactly one diagnostic while the others, the loop and
the display go on; a closed sink stays closed silently; and the sink
outcome is the pure tee result of the pre-state — independent of the
resize oracle and of both terminal-write oracles, so no display-layer
failure can interrupt the data path. -/
theorem claim_C1_tee_data_path (st : SashState) (line : List Nat)
    (accept : Nat → Nat) (io : Option (Nat × Nat)) (ta1 ta2 : Nat) :
    (process_line st line accept io ta1 ta2).files =
      (write_to_files line accept st.files).1 ∧
    (process_line st line accept io ta1 ta2).diag =
      st.diag ++ (write_to_files line accept st.files).2 ∧
    (write_to_files line accept st.files).1.length = st.files.length ∧
    (∀ i s, st.files.getD i none = some s → line.length ≤ accept i →
      (write_to_files line accept st.files).1.getD i none = some (s ++ line) ∧
      (write_to_files line accept st.files).2.count i = 0) ∧
    (∀ i s, st.files.getD i none = some s → accept i < line.length →
      (write_to_files line accept st.files).1.getD i none = none ∧
      (write_to_files line accept st.files).2.count i = 1) ∧
    (∀ i, st.files.getD i none = none →
      (write_to_files line accept st.files).1.getD i none = none ∧
      (write_to_files line accept st.files).2.count i = 0) := by
  obtain ⟨h1, h2⟩ := process_line_files st line accept io ta1 ta2
  obtain ⟨h3, h4, h5, h6⟩ := write_to_files_spec line accept st.files
  exact ⟨h1, h2, h3, h4, h5, h6⟩

/-- A state with two open sinks and one closed sink, for the C1 witness. -/
def exC1 : SashState :=
  { ring := ringbuf_init 3
    files := [some [], some [], none]
    diag := []
    is_tty := true
    line_numbers := false
    color := false
    win_height := 3
    term_cols := 80
    term_rows := 24
    scroll_bottom := 20
    win_top := 21
    started := true
    resize_pending := true
    total_lines := 0
    dbuf := []
    tty_out := []
    stdout_out := [] }

/-- Witness for C1: the line "h\n" is teed; sink 0 takes the write in
full, sink 1 accepts only one byte and is closed with one diagnostic, the
closed sink 2 stays silent — even though a resize intervenes and the
terminal accepts nothing of either display write. -/
theorem claim_C1_tee_data_path_witness :
    (process_line exC1 [104, 10] (fun i => if i = 1 then 1 else 1000)
        (some (80, 24)) 0 0).files = [some [104, 10], none, none] ∧
    (process_line exC1 [104, 10] (fun i => if i = 1 then 1 else 1000)
        (some (80, 24)) 0 0).diag = [1] ∧
    (write_to_files [104, 10] (fun i => if i = 1 then 1 else 1000)
        exC1.files).2.count 1 = 1 ∧
    (write_to_files [104, 10] (fun i => if i = 1 then 1 else 1000)
        exC1.files).2.count 0 = 0 := by
  have h := claim_C1_tee_data_path exC1 [104, 10]
    (fun i => if i = 1 then 1 else 1000) (some (80, 24)) 0 0
  refine ⟨?_, ?_, ?_, ?_⟩
  · rw [h.1]; decide
  · rw [h.2.1]; decide
  · exact (h.2.2.2.2.1 1 [] (by decide) (by decide)).2
  · exact (h.2.2.2.1 0 [] (by decide) (by decide)).2

end Sash
